import Mathlib

/-!
Verification of the Yeneta RAG platform against its specification.

The Python modules under `rag_engine/` are shallowly embedded below:
pure functions become Lean functions, floating-point scores become exact
rationals (`ℚ`), Python dictionaries become association lists that keep
insertion order, and every external model call (embeddings, ChromaDB,
cross-encoder, Groq LLM, langdetect) is an explicit oracle argument; an
oracle value of `none` models the call raising an exception.
-/

/-! ## Generic list helpers -/

/-- The last `n` elements of a list, in order.  Models the Python slice
`l[-n:]` for `n ≥ 1` (all caps in this code base are positive). -/
def takeLast {α : Type} (n : Nat) (l : List α) : List α :=
  (l.reverse.take n).reverse

theorem takeLast_length {α : Type} (n : Nat) (l : List α) :
    (takeLast n l).length = min n l.length := by
  simp [takeLast]

theorem takeLast_le_length {α : Type} (n : Nat) (l : List α) :
    (takeLast n l).length ≤ n := by
  simp [takeLast_length]

theorem takeLast_of_length_le {α : Type} {n : Nat} {l : List α}
    (h : l.length ≤ n) : takeLast n l = l := by
  unfold takeLast
  rw [List.take_of_length_le (by simpa using h), List.reverse_reverse]

theorem takeLast_append_takeLast {α : Type} (n : Nat) (l es : List α) :
    takeLast n (takeLast n l ++ es) = takeLast n (l ++ es) := by
  unfold takeLast
  rw [List.reverse_append, List.reverse_reverse, List.reverse_append]
  rw [List.take_append_eq_append_take, List.take_append_eq_append_take,
    List.take_take]
  rw [inf_eq_left.mpr (Nat.sub_le n es.reverse.length)]

/-- Stable insertion into a list that is already sorted with respect to the
boolean relation `le`: the new element goes after every element that may
precede it, exactly as Python's stable `list.sort` keeps equal keys in
encounter order. -/
def sInsert {α : Type} (le : α → α → Bool) (a : α) : List α → List α
  | [] => [a]
  | b :: bs => if le b a then b :: sInsert le a bs else a :: b :: bs

/-- Stable sort with respect to the boolean relation `le`; models Python's
stable `list.sort(key=..., reverse=...)` once `le` encodes the comparison. -/
def stableSort {α : Type} (le : α → α → Bool) (l : List α) : List α :=
  l.foldl (fun acc a => sInsert le a acc) []

theorem mem_sInsert {α : Type} {le : α → α → Bool} {a x : α} :
    ∀ {l : List α}, x ∈ sInsert le a l ↔ x = a ∨ x ∈ l := by
  intro l
  induction l with
  | nil => simp [sInsert]
  | cons b bs ih =>
    simp only [sInsert]
    split
    all_goals simp only [List.mem_cons, ih]
    all_goals tauto

theorem mem_foldl_sInsert {α : Type} {le : α → α → Bool} {x : α} :
    ∀ (l acc : List α),
      x ∈ l.foldl (fun acc a => sInsert le a acc) acc ↔ x ∈ acc ∨ x ∈ l := by
  intro l
  induction l with
  | nil => intro acc; simp
  | cons a as ih =>
    intro acc
    rw [List.foldl_cons, ih, mem_sInsert]
    simp only [List.mem_cons]
    tauto

theorem mem_stableSort {α : Type} {le : α → α → Bool} {x : α} {l : List α} :
    x ∈ stableSort le l ↔ x ∈ l := by
  unfold stableSort
  rw [mem_foldl_sInsert]
  simp

theorem sInsert_pairwise {α : Type} {le : α → α → Bool}
    (htot : ∀ a b, le a b = true ∨ le b a = true)
    (htrans : ∀ a b c, le a b = true → le b c = true → le a c = true)
    (a : α) :
    ∀ {l : List α}, l.Pairwise (le · · = true) →
      (sInsert le a l).Pairwise (le · · = true) := by
  intro l
  induction l with
  | nil => intro _; simp [sInsert]
  | cons b bs ih =>
    intro hl
    rw [List.pairwise_cons] at hl
    simp only [sInsert]
    split
    case isTrue hba =>
      rw [List.pairwise_cons]
      refine ⟨?_, ih hl.2⟩
      intro x hx
      rcases mem_sInsert.mp hx with rfl | hx
      · exact hba
      · exact hl.1 x hx
    case isFalse hba =>
      rw [List.pairwise_cons]
      have hab : le a b = true := by
        rcases htot a b with h | h
        · exact h
        · exact absurd h hba
      refine ⟨?_, List.pairwise_cons.mpr hl⟩
      intro x hx
      rcases List.mem_cons.mp hx with rfl | hx
      · exact hab
      · exact htrans a b x hab (hl.1 x hx)

theorem foldl_sInsert_pairwise {α : Type} {le : α → α → Bool}
    (htot : ∀ a b, le a b = true ∨ le b a = true)
    (htrans : ∀ a b c, le a b = true → le b c = true → le a c = true) :
    ∀ (l acc : List α), acc.Pairwise (le · · = true) →
      (l.foldl (fun acc a => sInsert le a acc) acc).Pairwise (le · · = true) := by
  intro l
  induction l with
  | nil => intro acc h; simpa using h
  | cons a as ih =>
    intro acc h
    rw [List.foldl_cons]
    exact ih _ (sInsert_pairwise htot htrans a h)

theorem stableSort_pairwise {α : Type} {le : α → α → Bool}
    (htot : ∀ a b, le a b = true ∨ le b a = true)
    (htrans : ∀ a b c, le a b = true → le b c = true → le a c = true)
    (l : List α) : (stableSort le l).Pairwise (le · · = true) :=
  foldl_sInsert_pairwise htot htrans l [] (by simp)

/-- Is `pat` a contiguous sub-sequence of `s`?  Models Python's
`re.search` on a pattern that is a plain literal, i.e. substring search. -/
def hasSub {α : Type} [BEq α] (pat : List α) : List α → Bool
  | [] => pat.isEmpty
  | c :: cs => pat.isPrefixOf (c :: cs) || hasSub pat cs

/-- Split a character list on runs of whitespace, dropping empty pieces;
the accumulator holds the current token reversed.  Models Python's
`str.split()` with no argument. -/
def splitWsAcc : List Char → List Char → List (List Char)
  | [], acc => if acc.isEmpty then [] else [acc.reverse]
  | c :: cs, acc =>
    if c.isWhitespace then
      if acc.isEmpty then splitWsAcc cs [] else acc.reverse :: splitWsAcc cs []
    else splitWsAcc cs (c :: acc)

/-- Remove leading and trailing whitespace characters; models `str.strip()`. -/
def stripChars (l : List Char) : List Char :=
  ((l.dropWhile Char.isWhitespace).reverse.dropWhile Char.isWhitespace).reverse

/-! ## Hybrid search engine (`rag_engine/hybrid_search.py`)

Scores are exact rationals.  The ChromaDB collection is a list of indexed
chunks; the embedding model together with the vector store is an oracle
that yields the formatted semantic results (`none` models the embedding
call raising), and the cross-encoder is an oracle relevance function
(`none` models `CrossEncoder.predict` raising). -/

/-- One indexed chunk of the collection: its ChromaDB id and its text. -/
structure Doc where
  id : Nat
  content : String
deriving DecidableEq

/-- A formatted search result as built by `semantic_search` /
`keyword_search`: content, id and the branch's raw score. -/
structure SearchResult where
  id : Nat
  content : String
  score : ℚ
deriving DecidableEq

/-- An entry of the `combined_results` dictionary in `hybrid_search`
before the `hybrid_score` key is added. -/
structure CombinedEntry where
  id : Nat
  content : String
  semantic_score : ℚ
  keyword_score : ℚ
deriving DecidableEq

/-- An entry of `combined_results` after the `hybrid_score` key is added;
`relevance_score` is `none` until `rerank_results` succeeds in scoring it
with the cross-encoder. -/
structure RankedResult where
  id : Nat
  content : String
  semantic_score : ℚ
  keyword_score : ℚ
  hybrid_score : ℚ
  relevance_score : Option ℚ
deriving DecidableEq

/-- `text.lower().split()`: lower-case, then split on whitespace runs. -/
def tokens (s : String) : List (List Char) :=
  splitWsAcc (s.data.map Char.toLower) []

/-- `semantic_search` (lines 144-179): the embedding model plus ChromaDB
query is the oracle; on any exception the function logs and returns `[]`. -/
def semantic_search (oracle : Option (List SearchResult)) : List SearchResult :=
  oracle.getD []

/-- Keyword score of one document (line 203): the number of query terms
that occur among the document's whitespace-delimited lower-cased terms. -/
def keywordScore (query_terms : List (List Char)) (d : Doc) : Nat :=
  query_terms.countP (fun t => (tokens d.content).contains t)

/-- Descending comparison on raw keyword scores for the stable sort at
line 214 (`reverse=True`). -/
def scoreGe (a b : SearchResult) : Bool :=
  decide (b.score ≤ a.score)

/-- `keyword_search` (lines 181-219): score every document, keep the ones
with a strictly positive score, sort by score descending, return top `k`. -/
def keyword_search (query : String) (docs : List Doc) (k : Nat) :
    List SearchResult :=
  let query_terms := tokens query
  let scored := docs.filterMap fun d =>
    let score := keywordScore query_terms d
    if 0 < score then some ⟨d.id, d.content, (score : ℚ)⟩ else none
  (stableSort scoreGe scored).take k

/-- Dictionary assignment of a fresh combined entry for a semantic result
(lines 277-285): replace the entry with this id, or append a new one. -/
def setSem (acc : List CombinedEntry) (r : SearchResult) : List CombinedEntry :=
  if acc.any (fun e => e.id == r.id) then
    acc.map fun e =>
      if e.id == r.id then ⟨r.id, r.content, r.score, 0⟩ else e
  else acc ++ [⟨r.id, r.content, r.score, 0⟩]

/-- Merge of one keyword result into the dictionary (lines 287-299):
update the `keyword_score` of an existing entry, or append a new entry
whose `semantic_score` is `0.0`. -/
def updateKw (acc : List CombinedEntry) (r : SearchResult) : List CombinedEntry :=
  if acc.any (fun e => e.id == r.id) then
    acc.map fun e =>
      if e.id == r.id then ⟨e.id, e.content, e.semantic_score, r.score⟩ else e
  else acc ++ [⟨r.id, r.content, 0, r.score⟩]

/-- The `combined_results` dictionary (lines 273-299) in insertion order:
all semantic results first, then the keyword results merged in. -/
def combineResults (semantic_results keyword_results : List SearchResult) :
    List CombinedEntry :=
  keyword_results.foldl updateKw (semantic_results.foldl setSem [])

/-- The default `semantic_weight` of `hybrid_search` (line 256). -/
def default_semantic_weight : ℚ := 7/10

/-- The hybrid score computation of lines 301-307: the `hybrid_score` key
is added to each combined entry as
`semantic_weight * semantic_score + (1 - semantic_weight) * keyword_score`
on the raw branch scores. -/
def withHybrid (semantic_weight : ℚ) (combined : List CombinedEntry) :
    List RankedResult :=
  combined.map fun e =>
    ⟨e.id, e.content, e.semantic_score, e.keyword_score,
      semantic_weight * e.semantic_score +
        (1 - semantic_weight) * e.keyword_score, none⟩

/-- The relevance key a result carries after reranking, `0` when absent. -/
def relOf (r : RankedResult) : ℚ :=
  r.relevance_score.getD 0

/-- Descending comparison on `relevance_score` (line 248, `reverse=True`). -/
def relGe (a b : RankedResult) : Bool :=
  decide (relOf b ≤ relOf a)

/-- Descending comparison on `hybrid_score` (line 311, `reverse=True`). -/
def hybridGe (a b : RankedResult) : Bool :=
  decide (b.hybrid_score ≤ a.hybrid_score)

/-- Attach the cross-encoder score of the pair `(query, content)` to a
result (lines 238-245). -/
def addRel (ce : String → String → ℚ) (query : String) (r : RankedResult) :
    RankedResult :=
  ⟨r.id, r.content, r.semantic_score, r.keyword_score, r.hybrid_score,
    some (ce query r.content)⟩

/-- `rerank_results` (lines 221-254).  `ce` is the cross-encoder oracle;
`none` models `predict` raising, in which case the `except` branch returns
the original results truncated to `top_k`.  Otherwise: empty input gives
`[]`, else every pair is scored, results are sorted by `relevance_score`
descending and the top `top_k` are returned. -/
def rerank_results (ce : Option (String → String → ℚ)) (query : String)
    (results : List RankedResult) (top_k : Nat) : List RankedResult :=
  match ce with
  | none => results.take top_k
  | some f =>
    if results.isEmpty then []
    else (stableSort relGe (results.map (addRel f query))).take top_k

/-- `hybrid_search` (lines 256-321): run both branches, merge them into
`combined_results`, add hybrid scores, sort by `hybrid_score` descending,
keep the top `k*2` candidates and rerank them down to `k`. -/
def hybrid_search (semOracle : Option (List SearchResult))
    (ce : Option (String → String → ℚ)) (query : String) (docs : List Doc)
    (k : Nat) (semantic_weight : ℚ) : List RankedResult :=
  let semantic_results := semantic_search semOracle
  let keyword_results := keyword_search query docs k
  let combined := combineResults semantic_results keyword_results
  let final_results := stableSort hybridGe (withHybrid semantic_weight combined)
  let top_results := final_results.take (k*2)
  rerank_results ce query top_results k

/-! ## Self-reflective RAG (`rag_engine/reflective_rag.py`)

The Groq LLM chains are oracles returning the assessment texts; `none`
models `chain.invoke` raising.  The score-parsing regexes
`LABEL:\s*(\d+)/10` are embedded as a direct scanner: at each position try
to match the label case-insensitively, skip whitespace, read a maximal
digit run and require the literal `/10` after it.  Because `/` is not a
digit, the maximal digit run is exactly what the backtracking `(\d+)`
capture can be followed by `/10`, so the scanner computes the same capture
as `re.search`. -/

/-- Case-insensitive literal match at the head of a text; returns the rest
of the text on success. -/
def matchCI : List Char → List Char → Option (List Char)
  | [], rest => some rest
  | _ :: _, [] => none
  | p :: ps, c :: cs =>
    if p.toLower = c.toLower then matchCI ps cs else none

/-- Digit run to a natural number. -/
def natOfDigits (ds : List Char) : Nat :=
  ds.foldl (fun n c => n * 10 + (c.toNat - 48)) 0

/-- Try `LABEL:\s*(\d+)/10` at the current position. -/
def tryScoreAt (label : List Char) (s : List Char) : Option Nat :=
  match matchCI label s with
  | none => none
  | some r1 =>
    let r2 := r1.dropWhile Char.isWhitespace
    let ds := r2.takeWhile Char.isDigit
    if ds.isEmpty then none
    else if ['/', '1', '0'].isPrefixOf (r2.drop ds.length) then
      some (natOfDigits ds)
    else none

/-- `re.search(label + r":\s*(\d+)/10", s, re.IGNORECASE)`: first position
where the pattern matches, `none` when it never does. -/
def scanScore (label : List Char) : List Char → Option Nat
  | [] => none
  | c :: cs =>
    match tryScoreAt label (c :: cs) with
    | some n => some n
    | none => scanScore label cs

/-- The capture of the score regex for one criterion label. -/
def parsedScore (label : String) (assessment : String) : Option Nat :=
  scanScore label.data assessment.data

def accuracyLabel : String := "ACCURACY:"
def clarityLabel : String := "CLARITY:"
def completenessLabel : String := "COMPLETENESS:"
def appropriatenessLabel : String := "APPROPRIATENESS:"
def engagementLabel : String := "ENGAGEMENT:"

/-- The five quality-criterion labels of `_parse_quality_scores`. -/
def qualityLabels : List String :=
  [accuracyLabel, clarityLabel, completenessLabel, appropriatenessLabel,
    engagementLabel]

/-- One criterion of `_parse_quality_scores` (lines 320-340): the parsed
number as a float, or the default score `5.0`. -/
def criterionScore (label : String) (assessment : String) : ℚ :=
  match parsedScore label assessment with
  | some n => (n : ℚ)
  | none => 5

/-- `_assess_quality` (lines 147-198) after the LLM oracle answered with
`assessment`: `sum(scores.values()) / len(scores) / 10` with the five
criteria of `_parse_quality_scores`. -/
def qualityScoreOf (assessment : String) : ℚ :=
  (criterionScore accuracyLabel assessment
    + criterionScore clarityLabel assessment
    + criterionScore completenessLabel assessment
    + criterionScore appropriatenessLabel assessment
    + criterionScore engagementLabel assessment) / 5 / 10

/-- Quality score including the exception default `0.5` (line 198). -/
def qualityFrom (assessment : Option String) : ℚ :=
  match assessment with
  | none => 1/2
  | some t => qualityScoreOf t

/-- `_parse_accuracy_score` (lines 354-359): parsed score divided by 10,
default `0.5`. -/
def accuracyScoreOf (validation : String) : ℚ :=
  match parsedScore accuracyLabel validation with
  | some n => (n : ℚ) / 10
  | none => 1/2

/-- Accuracy score including the exception default `0.5` (line 237). -/
def accuracyFrom (validation : Option String) : ℚ :=
  match validation with
  | none => 1/2
  | some t => accuracyScoreOf t

/-- The literal patterns of `safety_patterns["inappropriate"]`. -/
def inappropriatePatterns : List String :=
  ["violence", "harmful", "dangerous", "illegal", "discriminatory",
    "offensive", "inappropriate"]

/-- The literal patterns of `safety_patterns["misleading"]`. -/
def misleadingPatterns : List String :=
  ["always", "never", "all", "none", "guaranteed", "definitely",
    "certainly", "impossible"]

/-- Number of issues `_check_safety` collects (lines 127-141): one per
pattern that `re.search` finds in the lower-cased response; every pattern
is a plain word, so this is a substring test. -/
def safetyIssueCount (response : String) : Nat :=
  let low := response.data.map Char.toLower
  (inappropriatePatterns ++ misleadingPatterns).countP
    (fun p => hasSub p.data low)

/-- `_check_safety`'s score (line 143): `max(0, 1 - len(issues) * 0.2)`. -/
def safetyScoreOf (response : String) : ℚ :=
  max 0 (1 - (safetyIssueCount response : ℚ) * (1/5))

/-- The validation metrics dictionary compiled at lines 109-119 (the keys
the claims are about). -/
structure ValidationMetrics where
  safety_score : ℚ
  quality_score : ℚ
  accuracy_score : ℚ
  overall_score : ℚ
  improvements_made : Bool
deriving DecidableEq

/-- Result of one `validate_response` run: the improved response, the
metrics, and how many times the repair chain
(`_generate_improved_response`) was invoked. -/
structure ValidationRun where
  improved_response : String
  metrics : ValidationMetrics
  repair_calls : Nat
deriving DecidableEq

/-- `validate_response` (lines 71-125).  `qualityText` and `accuracyText`
are the LLM oracle answers for the two assessment chains (`none` models
`invoke` raising, giving the 0.5 defaults); `improvedText` is the oracle
answer of the repair chain, which is stripped on success and replaced by
the original response on failure (lines 288-292). -/
def validate_response (response : String)
    (qualityText accuracyText improvedText : Option String) : ValidationRun :=
  let safety_score := safetyScoreOf response
  let quality_score := qualityFrom qualityText
  let accuracy_score := accuracyFrom accuracyText
  let improved_response : String :=
    if safety_score < 8/10 ∨ quality_score < 7/10 ∨ accuracy_score < 7/10 then
      match improvedText with
      | some t => ⟨stripChars t.data⟩
      | none => response
    else response
  let repair_calls : Nat :=
    if safety_score < 8/10 ∨ quality_score < 7/10 ∨ accuracy_score < 7/10 then 1
    else 0
  { improved_response := improved_response
    metrics :=
      { safety_score := safety_score
        quality_score := quality_score
        accuracy_score := accuracy_score
        overall_score := (safety_score + quality_score + accuracy_score) / 3
        improvements_made := decide (improved_response ≠ response) }
    repair_calls := repair_calls }

/-! ## Memory-augmented RAG (`rag_engine/memory_rag.py`)

`st.session_state.memory_rag` becomes an explicit state record; only the
fields the update path touches are modelled.  `datetime.now().isoformat()`
is an explicit `now` argument of each call. -/

/-- The caps of `memory_config` (lines 37-43). -/
def session_memory_size : Nat := 20

def long_term_memory_size : Nat := 1000

def weak_topic_threshold : Nat := 3

/-- The fixed topic list of `_extract_topics` (lines 311-328). -/
def common_topics : List String :=
  ["mathematics", "algebra", "geometry", "calculus",
    "science", "biology", "chemistry", "physics",
    "history", "geography", "literature", "language",
    "art", "music", "sports", "technology"]

/-- `_extract_topics`: the common topics occurring as substrings of the
lower-cased text, in the fixed order. -/
def _extract_topics (text : String) : List String :=
  common_topics.filter fun topic =>
    hasSub (topic.data.map Char.toLower) (text.data.map Char.toLower)

/-- One element of the `user_history` argument of `_update_memory`:
a chat message dictionary read with `.get("content")`, `.get("role")` and
`.get("timestamp")` (absent timestamp falls back to `now`). -/
structure Interaction where
  content : String
  role : String
  timestamp : Option String
deriving DecidableEq

/-- The `memory_entry` dictionary built at lines 109-117. -/
structure MemoryEntry where
  timestamp : String
  query : String
  response : String
  language : String
  learning_level : String
  topics : List String
  interaction_type : String
deriving DecidableEq

/-- Lines 109-117: build a memory entry from one interaction. -/
def mkEntry (now language learning_level : String) (i : Interaction) :
    MemoryEntry :=
  { timestamp := i.timestamp.getD now
    query := i.content
    response := i.content
    language := language
    learning_level := learning_level
    topics := _extract_topics i.content
    interaction_type := i.role }

/-- The memory fields `_update_memory` reads and writes. -/
structure MemoryState where
  session_memory : List MemoryEntry
  long_term_memory : List MemoryEntry
  interaction_history : List MemoryEntry
  total_interactions : Nat
deriving DecidableEq

/-- The empty memory installed by `_init_memory_structures`. -/
def initMemory : MemoryState :=
  { session_memory := []
    long_term_memory := []
    interaction_history := []
    total_interactions := 0 }

/-- The arguments of one `_update_memory` call, plus the wall-clock value
used for absent timestamps. -/
structure UpdateCall where
  user_history : List Interaction
  language : String
  learning_level : String
  now : String
deriving DecidableEq

/-- The batch of entries one call appends: the last
`session_memory_size` interactions of `user_history` (line 106), mapped
through `mkEntry`. -/
def entriesOf (c : UpdateCall) : List MemoryEntry :=
  (takeLast session_memory_size c.user_history).map
    (mkEntry c.now c.language c.learning_level)

/-- `_update_memory` (lines 101-131): append the recent entries to both
`session_memory` and `interaction_history`, trim `session_memory` to its
cap when it exceeds it, recompute `long_term_memory` as the last
`long_term_memory_size` history entries, and refresh the counter. -/
def _update_memory (st : MemoryState) (c : UpdateCall) : MemoryState :=
  let entries := entriesOf c
  let session1 := st.session_memory ++ entries
  let history1 := st.interaction_history ++ entries
  { session_memory :=
      if session_memory_size < session1.length then
        takeLast session_memory_size session1
      else session1
    long_term_memory := takeLast long_term_memory_size history1
    interaction_history := history1
    total_interactions := history1.length }

/-- A finite sequence of `_update_memory` calls starting from the freshly
initialised memory. -/
def runUpdates (calls : List UpdateCall) : MemoryState :=
  calls.foldl _update_memory initMemory

/-- All entries the whole call sequence appends, oldest first. -/
def allEntries (calls : List UpdateCall) : List MemoryEntry :=
  (calls.map entriesOf).flatten

/-- The per-topic counters of `topic_mastery`. -/
structure MasteryData where
  correct : Nat
  total : Nat
deriving DecidableEq

/-- The `topic_mastery` dictionary, in insertion order. -/
abbrev TopicMastery : Type := List (String × MasteryData)

/-- `_identify_weak_topics` (lines 184-199): collect, in dictionary
order, every topic with recorded attempts whose accuracy is below 0.6 or
whose attempt count is below `weak_topic_threshold`; topics with
`total == 0` are skipped by the `if total_attempts > 0` guard. -/
def _identify_weak_topics (tm : TopicMastery) : List String :=
  tm.filterMap fun p =>
    if 0 < p.2.total then
      if (p.2.correct : ℚ) / (p.2.total : ℚ) < 6/10 ∨
          p.2.total < weak_topic_threshold then
        some p.1
      else none
    else none

/-- The dictionary `get_topic_mastery` returns. -/
structure MasteryReport where
  correct : Nat
  total : Nat
  accuracy : ℚ
deriving DecidableEq

/-- `get_topic_mastery` (lines 381-395): unknown topics report zeros, and
accuracy is `correct / total` guarded by `total > 0`, else `0.0`. -/
def get_topic_mastery (tm : TopicMastery) (topic : String) : MasteryReport :=
  match List.lookup topic tm with
  | none => { correct := 0, total := 0, accuracy := 0 }
  | some d =>
    { correct := d.correct
      total := d.total
      accuracy := if 0 < d.total then (d.correct : ℚ) / (d.total : ℚ) else 0 }

/-! ## Multilingual RAG (`rag_engine/multilingual_rag.py`)

`detect_language` (lines 92-127) is embedded with `langdetect.detect` as
an oracle (`none` models `detect` raising, which the `except` turns into
"en").  The regex character classes are embedded as code-point ranges and
the word patterns as case-insensitive substring tests.  Python's `\w` is
modelled for the scripts this engine handles: ASCII alphanumerics and
underscore, Ethiopic letters (U+1200-U+135A with their combining marks up
to U+135F), and Latin-1 / Latin Extended letters (U+00C0-U+1EF9). -/

/-- One entry of a `language_patterns` list: a character-class range such
as `[ሀ-፟]` / `[À-ỹ]`, or a literal word searched case-insensitively. -/
inductive LangPattern where
  | crange (lo hi : Nat)
  | lit (s : String)

/-- `re.search` of one pattern in the raw input text. -/
def pmatch (text : String) : LangPattern → Bool
  | .crange lo hi => text.data.any fun c => lo ≤ c.toNat && c.toNat ≤ hi
  | .lit s => hasSub (s.data.map Char.toLower) (text.data.map Char.toLower)

/-- The Ethiopic signature range `[ሀ-፟]` (U+1200 to U+135F). -/
def ethiopicRange : LangPattern := .crange 0x1200 0x135F

/-- The Latin-diacritics signature range `[À-ỹ]` (U+00C0 to U+1EF9). -/
def latinExtRange : LangPattern := .crange 0xC0 0x1EF9

/-- `self.language_patterns` (lines 84-90), in dictionary order. -/
def language_patterns : List (String × List LangPattern) :=
  [("am", [ethiopicRange, .lit ("አማርኛ"), .lit ("እንዴት"), .lit ("ምን"), .lit ("የት"),
      .lit ("መቼ")]),
    ("om", [ethiopicRange, .lit ("Afaan Oromoo"), .lit ("Akkam"), .lit ("Maal"),
      .lit ("Eessa"), .lit ("Yoom")]),
    ("ti", [ethiopicRange, .lit ("ትግርኛ"), .lit ("ከመይ"), .lit ("እንታይ"), .lit ("ኣበይ"),
      .lit ("መዓስ")]),
    ("yo", [latinExtRange, .lit ("Èdè Yorùbá"), .lit ("Bawo"), .lit ("Kini"),
      .lit ("Ibo"), .lit ("Nigbawo")]),
    ("sw", [latinExtRange, .lit ("Kiswahili"), .lit ("Vipi"), .lit ("Nini"),
      .lit ("Wapi"), .lit ("Lini")])]

/-- The modelled `\w` character class (see the section comment). -/
def isWordChar (c : Char) : Bool :=
  c.isAlphanum || c = '_' ||
    (0x1200 ≤ c.toNat && c.toNat ≤ 0x135F) ||
    (0xC0 ≤ c.toNat && c.toNat ≤ 0x1EF9)

/-- Line 99: `re.sub(r'[^\w\s]', '', text).strip()` as a character list. -/
def cleanText (text : String) : List Char :=
  stripChars (text.data.filter fun c => isWordChar c || c.isWhitespace)

/-- The `lang_mapping` dictionary of lines 114-121. -/
def lang_mapping : List (String × String) :=
  [("am", "am"), ("om", "om"), ("ti", "ti"), ("yo", "yo"), ("sw", "sw"),
    ("en", "en")]

/-- `detect_language` (lines 92-127): very short cleaned text defaults to
"en"; otherwise the first language whose pattern list matches wins, in
dictionary order; otherwise the `langdetect` oracle is mapped through
`lang_mapping` with default "en"; an oracle exception yields "en". -/
def detect_language (fallback : Option String) (text : String) : String :=
  if (cleanText text).length < 3 then "en"
  else
    match language_patterns.find? (fun lp => lp.2.any (pmatch text)) with
    | some lp => lp.1
    | none =>
      match fallback with
      | none => "en"
      | some detected => (List.lookup detected lang_mapping).getD ("en")

/-! ## Theorems -/

/-- Invariant of the memory update loop: the session window is always the
last `session_memory_size` entries of the full history, the long-term
window the last `long_term_memory_size` entries. -/
theorem runUpdates_inv :
    ∀ (calls : List UpdateCall) (st : MemoryState) (h : List MemoryEntry),
      st.interaction_history = h →
      st.session_memory = takeLast session_memory_size h →
      st.long_term_memory = takeLast long_term_memory_size h →
      (calls.foldl _update_memory st).interaction_history =
          h ++ allEntries calls ∧
        (calls.foldl _update_memory st).session_memory =
          takeLast session_memory_size (h ++ allEntries calls) ∧
        (calls.foldl _update_memory st).long_term_memory =
          takeLast long_term_memory_size (h ++ allEntries calls) := by
  intro calls
  induction calls with
  | nil =>
    intro st h h1 h2 h3
    simp only [List.foldl_nil, allEntries, List.map_nil, List.flatten_nil,
      List.append_nil]
    exact ⟨h1, h2, h3⟩
  | cons c cs ih =>
    intro st h h1 h2 h3
    rw [List.foldl_cons]
    have hsess :
        (_update_memory st c).session_memory =
          takeLast session_memory_size (h ++ entriesOf c) := by
      unfold _update_memory
      simp only [h1, h2]
      split
      · exact takeLast_append_takeLast _ _ _
      case isFalse hlen =>
        rw [← takeLast_append_takeLast session_memory_size h (entriesOf c)]
        exact (takeLast_of_length_le (Nat.le_of_not_lt hlen)).symm
    have hhist :
        (_update_memory st c).interaction_history = h ++ entriesOf c := by
      unfold _update_memory
      simp [h1]
    have hlong :
        (_update_memory st c).long_term_memory =
          takeLast long_term_memory_size (h ++ entriesOf c) := by
      unfold _update_memory
      simp [h1]
    have hall : allEntries (c :: cs) = entriesOf c ++ allEntries cs := by
      simp [allEntries]
    have step := ih (_update_memory st c) (h ++ entriesOf c) hhist hsess hlong
    rw [hall]
    rw [← List.append_assoc]
    exact step

/-- C5: after any finite sequence of memory update calls the session
window holds at most `session_memory_size = 20` entries and the long-term
window at most `long_term_memory_size = 1000`; eviction is strictly FIFO:
each window equals the suffix of most recently appended entries, in
order, of the full append history. -/
theorem C5_memory_caps_fifo (calls : List UpdateCall) :
    (runUpdates calls).session_memory.length ≤ session_memory_size ∧
      (runUpdates calls).long_term_memory.length ≤ long_term_memory_size ∧
      (runUpdates calls).interaction_history = allEntries calls ∧
      (runUpdates calls).session_memory =
        takeLast session_memory_size (allEntries calls) ∧
      (runUpdates calls).long_term_memory =
        takeLast long_term_memory_size (allEntries calls) := by
  have step := runUpdates_inv calls initMemory [] rfl rfl rfl
  simp only [List.nil_append] at step
  unfold runUpdates
  refine ⟨?_, ?_, step.1, step.2.1, step.2.2⟩
  · rw [step.2.1]; exact takeLast_le_length _ _
  · rw [step.2.2]; exact takeLast_le_length _ _

/-- C7 counterexample: the claim makes a topic with zero recorded
attempts weak (its total `0` is below the threshold `3`), but
`_identify_weak_topics` skips it because of the `if total_attempts > 0`
guard. -/
theorem C7_counterexample :
    ("algebra" ∉ _identify_weak_topics [(("algebra"), ⟨0, 0⟩)]) ∧
      (⟨0, 0⟩ : MasteryData).total < weak_topic_threshold := by
  constructor
  · decide
  · decide

/-- C7 (amended): a topic is identified as weak iff it has a
`topic_mastery` entry with at least one recorded attempt and either its
accuracy `correct/total` is below 0.6 or its attempt count is below
`weak_topic_threshold = 3`; zero-attempt topics are never reported. -/
theorem C7_weak_topics_iff (tm : TopicMastery) (t : String) :
    t ∈ _identify_weak_topics tm ↔
      ∃ d : MasteryData, (t, d) ∈ tm ∧ 0 < d.total ∧
        ((d.correct : ℚ) / (d.total : ℚ) < 6/10 ∨
          d.total < weak_topic_threshold) := by
  unfold _identify_weak_topics
  rw [List.mem_filterMap]
  constructor
  · rintro ⟨p, hp, he⟩
    split_ifs at he with h1 h2
    rw [Option.some_inj] at he
    subst he
    exact ⟨p.2, hp, h1, h2⟩
  · rintro ⟨d, hd, h1, h2⟩
    refine ⟨(t, d), hd, ?_⟩
    rw [if_pos h1, if_pos h2]

/-- C8: querying topic mastery never divides by zero: a zero attempt
total (including topics never recorded) reports accuracy `0`, and a
positive total reports `correct / total`. -/
theorem C8_topic_mastery_accuracy (tm : TopicMastery) (t : String) :
    ((get_topic_mastery tm t).total = 0 →
        (get_topic_mastery tm t).accuracy = 0) ∧
      (0 < (get_topic_mastery tm t).total →
        (get_topic_mastery tm t).accuracy =
          ((get_topic_mastery tm t).correct : ℚ) /
            ((get_topic_mastery tm t).total : ℚ)) ∧
      (List.lookup t tm = none →
        get_topic_mastery tm t = ⟨0, 0, 0⟩) := by
  unfold get_topic_mastery
  cases hl : List.lookup t tm with
  | none => exact ⟨fun _ => rfl, fun hp => absurd hp (by simp), fun _ => rfl⟩
  | some d =>
    refine ⟨?_, ?_, ?_⟩
    · intro h0
      simp only at h0 ⊢
      rw [if_neg]
      omega
    · intro hp
      simp only at hp ⊢
      rw [if_pos hp]
    · intro hn
      exact absurd hn (by simp)

/-- C8 witness: concrete instances of both branches: an unrecorded topic
reports zeros, and a recorded one reports `correct / total`. -/
theorem C8_topic_mastery_accuracy_witness :
    (get_topic_mastery [] ("algebra")).accuracy = 0 ∧
      get_topic_mastery [] ("algebra") = ⟨0, 0, 0⟩ ∧
      (get_topic_mastery [(("physics"), ⟨1, 2⟩)] ("physics")).accuracy =
        ((get_topic_mastery [(("physics"), ⟨1, 2⟩)] ("physics")).correct : ℚ) /
          ((get_topic_mastery [(("physics"), ⟨1, 2⟩)] ("physics")).total : ℚ) := by
  refine ⟨(C8_topic_mastery_accuracy [] ("algebra")).1 (by decide),
    (C8_topic_mastery_accuracy [] ("algebra")).2.2 (by decide),
    (C8_topic_mastery_accuracy [(("physics"), ⟨1, 2⟩)] ("physics")).2.1
      (by decide)⟩

/-- C7 witness for the amended statement: a topic with one wrong answer
out of one attempt is weak. -/
theorem C7_weak_topics_iff_witness :
    ("algebra") ∈ _identify_weak_topics [(("algebra"), ⟨0, 1⟩)] := by
  refine (C7_weak_topics_iff [(("algebra"), ⟨0, 1⟩)] ("algebra")).mpr
    ⟨⟨0, 1⟩, by decide, by decide, Or.inr (by decide)⟩

/-- C9 counterexample: the single-character text `"ሀ"` contains an
Ethiopic signature character, yet `detect_language` returns "en" — the
cleaned text is shorter than 3 characters, so the length guard fires
before any pattern is tried (even with the langdetect oracle answering
Amharic). -/
theorem C9_counterexample :
    detect_language (some ("am")) ("ሀ") = "en" ∧
      (∃ c ∈ ("ሀ" : String).data, 0x1200 ≤ c.toNat ∧ c.toNat ≤ 0x135F) := by
  constructor
  · decide
  · decide

/-- C9 (amended): whenever the input contains a character of the Ethiopic
signature class `[ሀ-፟]` and its cleaned form keeps at least 3 characters,
`detect_language` returns "am" — whatever langdetect would say, and in
particular for texts mixing in Latin digits or letters (which survive
cleaning as word characters). -/
theorem C9_amharic_detection (text : String) (fallback : Option String)
    (hchar : ∃ c ∈ text.data, 0x1200 ≤ c.toNat ∧ c.toNat ≤ 0x135F)
    (hlen : 3 ≤ (cleanText text).length) :
    detect_language fallback text = "am" := by
  unfold detect_language
  rw [if_neg (Nat.not_lt.mpr hlen)]
  have hp : pmatch text ethiopicRange = true := by
    simp only [ethiopicRange, pmatch, List.any_eq_true]
    obtain ⟨c, hc, h1, h2⟩ := hchar
    refine ⟨c, hc, ?_⟩
    simp only [Bool.and_eq_true, decide_eq_true_eq]
    exact ⟨h1, h2⟩
  rw [language_patterns, List.find?_cons_of_pos _ (by simp [hp])]

/-- C9 witness: `"ሀ12"` (Ethiopic plus Latin digits) is long enough after
cleaning and is detected as Amharic. -/
theorem C9_amharic_detection_witness :
    (∃ c ∈ ("ሀ12" : String).data, 0x1200 ≤ c.toNat ∧ c.toNat ≤ 0x135F) ∧
      3 ≤ (cleanText ("ሀ12")).length ∧
      detect_language none ("ሀ12") = "am" :=
  ⟨by decide, by decide, C9_amharic_detection ("ሀ12") none (by decide) (by decide)⟩

/-- Provenance of keyword results: every result of `keyword_search` comes
from an indexed document, carries that document's id and content, and its
score is the document's strictly positive raw keyword match count. -/
theorem keyword_search_provenance (query : String) (docs : List Doc) (k : Nat) :
    ∀ r ∈ keyword_search query docs k,
      ∃ d ∈ docs, r.id = d.id ∧ r.content = d.content ∧
        r.score = (keywordScore (tokens query) d : ℚ) ∧
        0 < keywordScore (tokens query) d := by
  intro r hr
  simp only [keyword_search] at hr
  have hr2 := List.take_subset _ _ hr
  rw [mem_stableSort, List.mem_filterMap] at hr2
  obtain ⟨d, hd, he⟩ := hr2
  split_ifs at he with h
  rw [Option.some_inj] at he
  subst he
  exact ⟨d, hd, rfl, rfl, rfl, h⟩

/-- Boolean `contains` agrees with list membership (the embedding of
Python's `in` on token lists). -/
theorem contains_true_iff_mem {α : Type} [BEq α] [LawfulBEq α] {l : List α}
    {a : α} : l.contains a = true ↔ a ∈ l := by
  rw [List.contains_iff_exists_mem_beq]
  constructor
  · rintro ⟨a', ha', hb⟩
    rw [beq_iff_eq] at hb
    exact hb ▸ ha'
  · intro h
    exact ⟨a, h, by simp⟩

/-- C10: keyword search only returns chunks with a strictly positive
score — every result shares at least one whitespace-delimited lower-cased
token with the query — so a query sharing no token with any indexed chunk
returns `[]` even for positive `k` on a non-empty corpus. -/
theorem C10_keyword_search_positive (query : String) (docs : List Doc)
    (k : Nat) :
    (∀ r ∈ keyword_search query docs k,
        (0 : ℚ) < r.score ∧ ∃ t ∈ tokens query, t ∈ tokens r.content) ∧
      ((∀ d ∈ docs, ∀ t ∈ tokens query, ¬ t ∈ tokens d.content) →
        keyword_search query docs k = []) := by
  constructor
  · intro r hr
    obtain ⟨d, hd, hid, hcont, hscore, hpos⟩ :=
      keyword_search_provenance query docs k r hr
    constructor
    · rw [hscore]
      exact_mod_cast hpos
    · rw [hcont]
      obtain ⟨t, ht, htc⟩ := List.countP_pos_iff.mp hpos
      exact ⟨t, ht, contains_true_iff_mem.mp htc⟩
  · intro hnone
    simp only [keyword_search]
    have hfm : (List.filterMap (fun d =>
        if 0 < keywordScore (tokens query) d then
          some (⟨d.id, d.content, (keywordScore (tokens query) d : ℚ)⟩ :
            SearchResult)
        else none) docs) = [] := by
      rw [List.filterMap_eq_nil_iff]
      intro d hd
      have hz : keywordScore (tokens query) d = 0 := by
        rw [keywordScore, List.countP_eq_zero]
        intro t ht hc
        exact hnone d hd t ht (contains_true_iff_mem.mp hc)
      simp [hz]
    rw [hfm]
    simp [stableSort]

/-- C10 witness: a query sharing no token with the only indexed chunk
yields the empty result list. -/
theorem C10_keyword_search_positive_witness :
    keyword_search ("zz") [⟨0, "alpha"⟩] 5 = [] := by
  refine (C10_keyword_search_positive ("zz") [⟨0, "alpha"⟩] 5).2 ?_
  decide

/-- Every parsed criterion score is non-negative (a parsed digit run or
the default `5.0`). -/
theorem criterionScore_nonneg (label assessment : String) :
    0 ≤ criterionScore label assessment := by
  unfold criterionScore
  cases h : parsedScore label assessment with
  | none => norm_num
  | some n => exact Nat.cast_nonneg n

/-- When the capture of the score regex is at most 10, the criterion
score is at most 10 (the default `5.0` also is). -/
theorem criterionScore_le_ten {label assessment : String}
    (h : (parsedScore label assessment).getD 0 ≤ 10) :
    criterionScore label assessment ≤ 10 := by
  unfold criterionScore
  cases hp : parsedScore label assessment with
  | none => norm_num
  | some n =>
    rw [hp, Option.getD_some] at h
    show (n : ℚ) ≤ 10
    exact_mod_cast h

/-- The safety score always lies in `[0, 1]`. -/
theorem safetyScoreOf_mem_unit (response : String) :
    0 ≤ safetyScoreOf response ∧ safetyScoreOf response ≤ 1 := by
  unfold safetyScoreOf
  constructor
  · exact le_max_left 0 _
  · have h0 : (0 : ℚ) ≤ (safetyIssueCount response : ℚ) := Nat.cast_nonneg _
    apply max_le (by norm_num)
    nlinarith

/-- The quality score is non-negative for every oracle answer. -/
theorem qualityFrom_nonneg (qualityText : Option String) :
    0 ≤ qualityFrom qualityText := by
  cases qualityText with
  | none => norm_num [qualityFrom]
  | some t =>
    have h1 := criterionScore_nonneg accuracyLabel t
    have h2 := criterionScore_nonneg clarityLabel t
    have h3 := criterionScore_nonneg completenessLabel t
    have h4 := criterionScore_nonneg appropriatenessLabel t
    have h5 := criterionScore_nonneg engagementLabel t
    unfold qualityFrom qualityScoreOf
    positivity

/-- The accuracy score is non-negative for every oracle answer. -/
theorem accuracyFrom_nonneg (accuracyText : Option String) :
    0 ≤ accuracyFrom accuracyText := by
  cases accuracyText with
  | none => norm_num [accuracyFrom]
  | some t =>
    show 0 ≤ accuracyScoreOf t
    unfold accuracyScoreOf
    split
    · positivity
    · norm_num

/-- When every quality criterion the LLM text yields parses to at most 10
(the `X/10` format it is asked for), the quality score is at most 1. -/
theorem qualityFrom_le_one {qualityText : Option String}
    (h : ∀ t, qualityText = some t →
      ∀ lab ∈ qualityLabels, (parsedScore lab t).getD 0 ≤ 10) :
    qualityFrom qualityText ≤ 1 := by
  cases qualityText with
  | none => norm_num [qualityFrom]
  | some t =>
    have hb : ∀ lab ∈ qualityLabels, criterionScore lab t ≤ 10 :=
      fun lab hl => criterionScore_le_ten (h t rfl lab hl)
    have h1 := hb accuracyLabel (by simp [qualityLabels])
    have h2 := hb clarityLabel (by simp [qualityLabels])
    have h3 := hb completenessLabel (by simp [qualityLabels])
    have h4 := hb appropriatenessLabel (by simp [qualityLabels])
    have h5 := hb engagementLabel (by simp [qualityLabels])
    show qualityScoreOf t ≤ 1
    unfold qualityScoreOf
    rw [div_div, div_le_one (by norm_num)]
    linarith

/-- When the accuracy validation text parses to at most 10, the accuracy
score is at most 1. -/
theorem accuracyFrom_le_one {accuracyText : Option String}
    (h : ∀ t, accuracyText = some t →
      (parsedScore accuracyLabel t).getD 0 ≤ 10) :
    accuracyFrom accuracyText ≤ 1 := by
  cases accuracyText with
  | none => norm_num [accuracyFrom]
  | some t =>
    show accuracyScoreOf t ≤ 1
    unfold accuracyScoreOf
    split
    next n heq =>
      have hn := h t rfl
      rw [heq, Option.getD_some] at hn
      rw [div_le_one (by norm_num)]
      exact_mod_cast hn
    next heq => norm_num

/-- C3 counterexample: the claim bounds every component score by 1 for
every possible model-assessment text, but the accuracy text
`"ACCURACY: 99/10"` parses to 99 and yields an accuracy score of 9.9. -/
theorem C3_counterexample :
    1 < (validate_response ("ok") (some ("")) (some ("ACCURACY: 99/10"))
        none).metrics.accuracy_score ∧
      (validate_response ("ok") (some ("")) (some ("ACCURACY: 99/10"))
        none).metrics.accuracy_score = 99/10 := by
  have hp : parsedScore accuracyLabel ("ACCURACY: 99/10") = some 99 := by
    decide
  have he : (validate_response ("ok") (some ("")) (some ("ACCURACY: 99/10"))
      none).metrics.accuracy_score = (99 : ℚ) / 10 := by
    show accuracyScoreOf ("ACCURACY: 99/10") = (99 : ℚ) / 10
    unfold accuracyScoreOf
    rw [hp]
    show ((99 : ℕ) : ℚ) / 10 = (99 : ℚ) / 10
    norm_num
  rw [he]
  norm_num

/-- C3 (amended): the overall score is always the arithmetic mean of the
three component scores; the safety score always lies in `[0,1]` and the
quality and accuracy scores are non-negative; the quality and accuracy
scores are bounded by 1 provided each score the assessment texts yield
parses to at most 10 (as the `X/10` answer format requests) — texts with
larger numerators push them above 1. -/
theorem C3_overall_score_mean (response : String)
    (qualityText accuracyText improvedText : Option String) :
    ((validate_response response qualityText accuracyText
          improvedText).metrics.overall_score =
        ((validate_response response qualityText accuracyText
            improvedText).metrics.safety_score +
          (validate_response response qualityText accuracyText
            improvedText).metrics.quality_score +
          (validate_response response qualityText accuracyText
            improvedText).metrics.accuracy_score) / 3) ∧
      0 ≤ (validate_response response qualityText accuracyText
        improvedText).metrics.safety_score ∧
      (validate_response response qualityText accuracyText
        improvedText).metrics.safety_score ≤ 1 ∧
      0 ≤ (validate_response response qualityText accuracyText
        improvedText).metrics.quality_score ∧
      0 ≤ (validate_response response qualityText accuracyText
        improvedText).metrics.accuracy_score ∧
      ((∀ t, qualityText = some t →
          ∀ lab ∈ qualityLabels, (parsedScore lab t).getD 0 ≤ 10) →
        (validate_response response qualityText accuracyText
          improvedText).metrics.quality_score ≤ 1) ∧
      ((∀ t, accuracyText = some t →
          (parsedScore accuracyLabel t).getD 0 ≤ 10) →
        (validate_response response qualityText accuracyText
          improvedText).metrics.accuracy_score ≤ 1) :=
  ⟨rfl, (safetyScoreOf_mem_unit response).1, (safetyScoreOf_mem_unit response).2,
    qualityFrom_nonneg qualityText, accuracyFrom_nonneg accuracyText,
    fun h => qualityFrom_le_one h, fun h => accuracyFrom_le_one h⟩

/-- C3 witness: with well-formed assessment texts the amended bounds are
discharged at a concrete input. -/
theorem C3_overall_score_mean_witness :
    (validate_response ("ok") (some ("ACCURACY: 8/10"))
        (some ("ACCURACY: 10/10")) none).metrics.quality_score ≤ 1 ∧
      (validate_response ("ok") (some ("ACCURACY: 8/10"))
        (some ("ACCURACY: 10/10")) none).metrics.accuracy_score ≤ 1 := by
  have h := C3_overall_score_mean ("ok") (some ("ACCURACY: 8/10"))
    (some ("ACCURACY: 10/10")) none
  refine ⟨h.2.2.2.2.2.1 ?_, h.2.2.2.2.2.2 ?_⟩
  · intro t ht
    cases ht
    decide
  · intro t ht
    cases ht
    decide

/-- C4: the repair chain is invoked exactly when
`safety < 0.8 ∨ quality < 0.7 ∨ accuracy < 0.7`, and never more than once
per validation run — there is no retry loop, whatever the repaired draft
would score. -/
theorem C4_repair_at_most_once (response : String)
    (qualityText accuracyText improvedText : Option String) :
    ((validate_response response qualityText accuracyText
          improvedText).repair_calls = 1 ↔
        (safetyScoreOf response < 8/10 ∨ qualityFrom qualityText < 7/10 ∨
          accuracyFrom accuracyText < 7/10)) ∧
      (validate_response response qualityText accuracyText
        improvedText).repair_calls ≤ 1 := by
  have e : (validate_response response qualityText accuracyText
      improvedText).repair_calls =
      (if safetyScoreOf response < 8/10 ∨ qualityFrom qualityText < 7/10 ∨
        accuracyFrom accuracyText < 7/10 then 1 else 0) := rfl
  rw [e]
  split_ifs with h
  · exact ⟨⟨fun _ => h, fun _ => rfl⟩, le_refl 1⟩
  · exact ⟨⟨fun h1 => absurd h1 (by norm_num), fun hh => absurd hh h⟩,
      by norm_num⟩

/-- C4 witness: with both LLM assessment oracles failing (0.5 defaults,
below the 0.7 thresholds) exactly one repair call happens. -/
theorem C4_repair_at_most_once_witness :
    (validate_response ("ok") none none none).repair_calls = 1 :=
  (C4_repair_at_most_once ("ok") none none none).1.mpr
    (Or.inr (Or.inl (by norm_num [qualityFrom])))

/-- Every entry produced by the semantic pass over `combined_results`
satisfies `P` when `P` holds on the incoming entries and on every fresh
semantic entry. -/
theorem foldl_setSem_forall (P : CombinedEntry → Prop) :
    ∀ (rs : List SearchResult) (acc : List CombinedEntry),
      (∀ e ∈ acc, P e) →
      (∀ r ∈ rs, P ⟨r.id, r.content, r.score, 0⟩) →
      ∀ e ∈ rs.foldl setSem acc, P e := by
  intro rs
  induction rs with
  | nil =>
    intro acc hacc _ e he
    rw [List.foldl_nil] at he
    exact hacc e he
  | cons r rs ih =>
    intro acc hacc hnew e he
    rw [List.foldl_cons] at he
    refine ih (setSem acc r) ?_
      (fun r' hr' => hnew r' (List.mem_cons_of_mem _ hr')) e he
    intro e' he'
    unfold setSem at he'
    split at he'
    · obtain ⟨x, hx, hxe⟩ := List.mem_map.mp he'
      split_ifs at hxe
      · subst hxe
        exact hnew r (List.mem_cons_self r rs)
      · subst hxe
        exact hacc x hx
    · rcases List.mem_append.mp he' with h | h
      · exact hacc e' h
      · rw [List.mem_singleton] at h
        subst h
        exact hnew r (List.mem_cons_self r rs)

/-- Every entry produced by the keyword merge pass satisfies `P` when `P`
holds on the incoming entries, is preserved by overwriting the keyword
score of a same-id entry, and holds on every fresh keyword-only entry. -/
theorem foldl_updateKw_forall (P : CombinedEntry → Prop) :
    ∀ (rs : List SearchResult) (acc : List CombinedEntry),
      (∀ e r, r ∈ rs → e.id = r.id → P e →
        P ⟨e.id, e.content, e.semantic_score, r.score⟩) →
      (∀ r ∈ rs, P ⟨r.id, r.content, 0, r.score⟩) →
      (∀ e ∈ acc, P e) →
      ∀ e ∈ rs.foldl updateKw acc, P e := by
  intro rs
  induction rs with
  | nil =>
    intro acc _ _ hacc e he
    rw [List.foldl_nil] at he
    exact hacc e he
  | cons r rs ih =>
    intro acc hupd hnew hacc e he
    rw [List.foldl_cons] at he
    refine ih (updateKw acc r)
      (fun e' r' hr' => hupd e' r' (List.mem_cons_of_mem _ hr'))
      (fun r' hr' => hnew r' (List.mem_cons_of_mem _ hr')) ?_ e he
    intro e' he'
    unfold updateKw at he'
    split at he'
    · obtain ⟨x, hx, hxe⟩ := List.mem_map.mp he'
      split_ifs at hxe with hid
      · subst hxe
        rw [beq_iff_eq] at hid
        exact hupd x r (List.mem_cons_self r rs) hid (hacc x hx)
      · subst hxe
        exact hacc x hx
    · rcases List.mem_append.mp he' with h | h
      · exact hacc e' h
      · rw [List.mem_singleton] at h
        subst h
        exact hnew r (List.mem_cons_self r rs)

/-- C1 (amended): every combined candidate's hybrid score is
`w · semantic_score + (1-w) · keyword_score` computed on the RAW branch
scores — the raw ChromaDB distance and the raw keyword match count, with
no normalization step — with `semantic_weight` defaulting to 0.7; a
candidate missing from one branch contributes 0 for that branch. -/
theorem C1_hybrid_score_formula (semRes kwRes : List SearchResult) (w : ℚ) :
    (∀ e ∈ withHybrid w (combineResults semRes kwRes),
        e.hybrid_score = w * e.semantic_score + (1 - w) * e.keyword_score ∧
          (e.id ∉ semRes.map (fun r => r.id) → e.semantic_score = 0) ∧
          (e.id ∉ kwRes.map (fun r => r.id) → e.keyword_score = 0)) ∧
      default_semantic_weight = 7/10 := by
  constructor
  · intro e he
    obtain ⟨c, hc, hce⟩ := List.mem_map.mp he
    have hsem0 : c.id ∉ semRes.map (fun r => r.id) → c.semantic_score = 0 := by
      intro hnot
      refine foldl_updateKw_forall
        (fun x => x.id ∉ semRes.map (fun r => r.id) → x.semantic_score = 0)
        kwRes (semRes.foldl setSem []) ?_ ?_ ?_ c hc hnot
      · intro x r _ _ hx hnot2
        exact hx hnot2
      · intro r _ _
        rfl
      · intro x hx hnot2
        exact absurd (foldl_setSem_forall
          (fun y => y.id ∈ semRes.map (fun r => r.id)) semRes [] (by simp)
          (fun r hr => List.mem_map.mpr ⟨r, hr, rfl⟩) x hx) hnot2
    have hkw0 : c.id ∉ kwRes.map (fun r => r.id) → c.keyword_score = 0 := by
      intro hnot
      refine foldl_updateKw_forall
        (fun x => x.id ∉ kwRes.map (fun r => r.id) → x.keyword_score = 0)
        kwRes (semRes.foldl setSem []) ?_ ?_ ?_ c hc hnot
      · intro x r hr hid _ hnot2
        exact absurd (List.mem_map.mpr ⟨r, hr, hid.symm⟩) hnot2
      · intro r hr hnot2
        exact absurd (List.mem_map.mpr ⟨r, hr, rfl⟩) hnot2
      · intro x hx _
        exact foldl_setSem_forall (fun y => y.keyword_score = 0) semRes []
          (by simp) (fun r _ => rfl) x hx
    subst hce
    exact ⟨rfl, hsem0, hkw0⟩
  · rfl

/-- C1 witness: the single candidate of a one-hit semantic branch with an
empty keyword branch carries keyword score 0 and the weighted raw
combination as its hybrid score. -/
theorem C1_hybrid_score_formula_witness :
    (⟨0, "a", 1/2, 0, 7/10 * (1/2) + (1 - 7/10) * 0, none⟩ :
        RankedResult).keyword_score = 0 ∧
      (⟨0, "a", 1/2, 0, 7/10 * (1/2) + (1 - 7/10) * 0, none⟩ :
          RankedResult).hybrid_score =
        7/10 * (⟨0, "a", 1/2, 0, 7/10 * (1/2) + (1 - 7/10) * 0, none⟩ :
          RankedResult).semantic_score +
        (1 - 7/10) * (⟨0, "a", 1/2, 0, 7/10 * (1/2) + (1 - 7/10) * 0, none⟩ :
          RankedResult).keyword_score := by
  have hm : (⟨0, "a", 1/2, 0, 7/10 * (1/2) + (1 - 7/10) * 0, none⟩ :
      RankedResult) ∈
      withHybrid (7/10) (combineResults [⟨0, "a", 1/2⟩] []) := by
    have he : withHybrid (7/10) (combineResults [⟨0, "a", 1/2⟩] []) =
        [⟨0, "a", 1/2, 0, 7/10 * (1/2) + (1 - 7/10) * 0, none⟩] := rfl
    rw [he]
    exact List.mem_singleton_self _
  have h := (C1_hybrid_score_formula [⟨0, "a", 1/2⟩] [] (7/10)).1 _ hm
  exact ⟨h.2.2 (by simp), h.1⟩

/-- C1 counterexample: with the query `"x x x x x"` against the single
chunk `"x"`, the keyword branch scores a raw match count of 5 and the
candidate's hybrid score is `0.3 · 5 = 1.5` — a value no combination
`0.7·a + 0.3·b` of scores normalized to a common `[0,1]` scale can reach,
so the branches are not normalized before combining. -/
theorem C1_counterexample :
    (∃ e ∈ withHybrid (7/10) (combineResults []
        (keyword_search ("x x x x x") [⟨0, "x"⟩] 10)),
      e.hybrid_score = 3/2) ∧
      ∀ a b : ℚ, 0 ≤ a → a ≤ 1 → 0 ≤ b → b ≤ 1 →
        7/10 * a + (1 - 7/10) * b ≠ 3/2 := by
  constructor
  · have he : withHybrid (7/10) (combineResults []
        (keyword_search ("x x x x x") [⟨0, "x"⟩] 10)) =
        [⟨0, "x", 0, ((5 : ℕ) : ℚ),
          7/10 * 0 + (1 - 7/10) * ((5 : ℕ) : ℚ), none⟩] := rfl
    rw [he]
    refine ⟨_, List.mem_singleton_self _, ?_⟩
    push_cast
    norm_num
  · intro a b ha h1 hb h2 heq
    nlinarith

/-- The descending relevance comparison is total. -/
theorem relGe_total (a b : RankedResult) :
    relGe a b = true ∨ relGe b a = true := by
  unfold relGe
  rcases le_total (relOf b) (relOf a) with h | h
  · exact Or.inl (decide_eq_true h)
  · exact Or.inr (decide_eq_true h)

/-- The descending relevance comparison is transitive. -/
theorem relGe_trans (a b c : RankedResult) :
    relGe a b = true → relGe b c = true → relGe a c = true := by
  intro hab hbc
  unfold relGe at hab hbc ⊢
  exact decide_eq_true (le_trans (of_decide_eq_true hbc)
    (of_decide_eq_true hab))

/-- Provenance of combined candidates: when every semantic result refers
to an indexed document, every entry of `combined_results` does too. -/
theorem combineResults_mem_docs {docs : List Doc} {semRes : List SearchResult}
    (query : String) (k : Nat)
    (hsem : ∀ r ∈ semRes, ∃ d ∈ docs, r.id = d.id ∧ r.content = d.content) :
    ∀ c ∈ combineResults semRes (keyword_search query docs k),
      ∃ d ∈ docs, c.id = d.id ∧ c.content = d.content := by
  refine foldl_updateKw_forall
    (fun e => ∃ d ∈ docs, e.id = d.id ∧ e.content = d.content)
    (keyword_search query docs k) (semRes.foldl setSem []) ?_ ?_ ?_
  · rintro e r _ _ ⟨d, hd, h1, h2⟩
    exact ⟨d, hd, h1, h2⟩
  · intro r hr
    obtain ⟨d, hd, h1, h2, _, _⟩ :=
      keyword_search_provenance query docs k r hr
    exact ⟨d, hd, h1, h2⟩
  · refine foldl_setSem_forall _ semRes [] (by simp) ?_
    intro r hr
    obtain ⟨d, hd, h1, h2⟩ := hsem r hr
    exact ⟨d, hd, h1, h2⟩

/-- Successful reranking is the relevance-sorted, truncated, scored list
(the `results` empty special case returns `[]` either way). -/
theorem rerank_results_some (f : String → String → ℚ) (query : String)
    (results : List RankedResult) (top_k : Nat) :
    rerank_results (some f) query results top_k =
      (stableSort relGe (results.map (addRel f query))).take top_k := by
  show (if results.isEmpty then [] else
    (stableSort relGe (results.map (addRel f query))).take top_k) = _
  split
  next hemp =>
    rw [List.isEmpty_iff.mp hemp]
    simp [stableSort]
  next => rfl

/-- C2: hybrid-mode search returns at most `k` results, sorted descending
by `relevance_score`, each referring to an indexed chunk and each scored
by the cross-encoder on the pair `(query, chunk_text)`; the final list is
exactly the relevance-sorted top `k` of the top `k*2` hybrid-ranked
candidates, all of which the rerank stage scores. -/
theorem C2_hybrid_search_topk (query : String) (docs : List Doc) (k : Nat)
    (w : ℚ) (semRes : List SearchResult) (f : String → String → ℚ)
    (hsem : ∀ r ∈ semRes, ∃ d ∈ docs, r.id = d.id ∧ r.content = d.content) :
    (hybrid_search (some semRes) (some f) query docs k w).length ≤ k ∧
      (hybrid_search (some semRes) (some f) query docs k w).Pairwise
        (fun a b => relOf b ≤ relOf a) ∧
      (∀ r ∈ hybrid_search (some semRes) (some f) query docs k w,
        ∃ d ∈ docs, r.id = d.id ∧ r.content = d.content) ∧
      (∀ r ∈ hybrid_search (some semRes) (some f) query docs k w,
        r.relevance_score = some (f query r.content)) ∧
      hybrid_search (some semRes) (some f) query docs k w =
        (stableSort relGe
          (((stableSort hybridGe (withHybrid w (combineResults semRes
              (keyword_search query docs k)))).take (k*2)).map
            (addRel f query))).take k := by
  have heq : hybrid_search (some semRes) (some f) query docs k w =
      (stableSort relGe
        (((stableSort hybridGe (withHybrid w (combineResults semRes
            (keyword_search query docs k)))).take (k*2)).map
          (addRel f query))).take k := by
    rw [show hybrid_search (some semRes) (some f) query docs k w =
        rerank_results (some f) query ((stableSort hybridGe (withHybrid w
          (combineResults semRes (keyword_search query docs k)))).take (k*2))
          k from rfl]
    exact rerank_results_some f query _ k
  have hmem : ∀ r ∈ hybrid_search (some semRes) (some f) query docs k w,
      ∃ c ∈ combineResults semRes (keyword_search query docs k),
        r = addRel f query (⟨c.id, c.content, c.semantic_score,
          c.keyword_score, w * c.semantic_score + (1 - w) * c.keyword_score,
          none⟩ : RankedResult) := by
    intro r hr
    rw [heq] at hr
    have hr2 := List.take_subset _ _ hr
    rw [mem_stableSort] at hr2
    obtain ⟨x, hx, hxe⟩ := List.mem_map.mp hr2
    have hx2 := List.take_subset _ _ hx
    rw [mem_stableSort] at hx2
    obtain ⟨c, hc, hce⟩ := List.mem_map.mp hx2
    exact ⟨c, hc, by rw [← hxe, ← hce]⟩
  refine ⟨?_, ?_, ?_, ?_, heq⟩
  · rw [heq, List.length_take]
    exact min_le_left _ _
  · rw [heq]
    refine List.Pairwise.sublist (List.take_sublist _ _) ?_
    refine List.Pairwise.imp (fun h => of_decide_eq_true h) ?_
    exact stableSort_pairwise (fun a b => relGe_total a b)
      (fun a b c => relGe_trans a b c) _
  · intro r hr
    obtain ⟨c, hc, hce⟩ := hmem r hr
    obtain ⟨d, hd, h1, h2⟩ := combineResults_mem_docs query k hsem c hc
    subst hce
    exact ⟨d, hd, h1, h2⟩
  · intro r hr
    obtain ⟨c, hc, hce⟩ := hmem r hr
    subst hce
    rfl

/-- C2 witness: a concrete one-chunk corpus whose semantic branch refers
to the indexed chunk satisfies all parts of the claim. -/
theorem C2_hybrid_search_topk_witness :
    (hybrid_search (some [⟨0, "alpha", 1/2⟩]) (some (fun _ _ => 1)) ("alpha")
        [⟨0, "alpha"⟩] 5 (7/10)).length ≤ 5 ∧
      (∀ r ∈ hybrid_search (some [⟨0, "alpha", 1/2⟩]) (some (fun _ _ => 1))
          ("alpha") [⟨0, "alpha"⟩] 5 (7/10),
        ∃ d ∈ [(⟨0, "alpha"⟩ : Doc)], r.id = d.id ∧ r.content = d.content) := by
  have h := C2_hybrid_search_topk ("alpha") [⟨0, "alpha"⟩] 5 (7/10)
    [⟨0, "alpha", 1/2⟩] (fun _ _ => 1) ?_
  · exact ⟨h.1, h.2.2.1⟩
  · intro r hr
    rw [List.mem_singleton] at hr
    subst hr
    exact ⟨⟨0, "alpha"⟩, List.mem_singleton_self _, rfl, rfl⟩

/-- Every result hybrid search returns originates in a combined
candidate, whose id and content it carries — for every state of the two
model oracles. -/
theorem hybrid_search_mem_combined (semOracle : Option (List SearchResult))
    (ce : Option (String → String → ℚ)) (query : String) (docs : List Doc)
    (k : Nat) (w : ℚ) :
    ∀ r ∈ hybrid_search semOracle ce query docs k w,
      ∃ c ∈ combineResults (semantic_search semOracle)
          (keyword_search query docs k),
        r.id = c.id ∧ r.content = c.content := by
  intro r hr
  cases ce with
  | none =>
    have hr1 : r ∈ ((stableSort hybridGe (withHybrid w (combineResults
        (semantic_search semOracle)
        (keyword_search query docs k)))).take (k*2)).take k := hr
    have hr2 := List.take_subset _ _ (List.take_subset _ _ hr1)
    rw [mem_stableSort] at hr2
    obtain ⟨c, hc, hce⟩ := List.mem_map.mp hr2
    exact ⟨c, hc, by rw [← hce]; exact ⟨rfl, rfl⟩⟩
  | some f =>
    rw [show hybrid_search semOracle (some f) query docs k w =
        rerank_results (some f) query ((stableSort hybridGe (withHybrid w
          (combineResults (semantic_search semOracle)
            (keyword_search query docs k)))).take (k*2)) k from rfl,
      rerank_results_some] at hr
    have hr2 := List.take_subset _ _ hr
    rw [mem_stableSort] at hr2
    obtain ⟨x, hx, hxe⟩ := List.mem_map.mp hr2
    have hx2 := List.take_subset _ _ hx
    rw [mem_stableSort] at hx2
    obtain ⟨c, hc, hce⟩ := List.mem_map.mp hx2
    refine ⟨c, hc, ?_⟩
    rw [← hxe, ← hce]
    exact ⟨rfl, rfl⟩

/-- With the embedding oracle down, every combined candidate is a keyword
candidate. -/
theorem combineResults_nil_sem (kwRes : List SearchResult) :
    ∀ c ∈ combineResults [] kwRes,
      ∃ kr ∈ kwRes, c.id = kr.id ∧ c.content = kr.content := by
  refine foldl_updateKw_forall
    (fun e => ∃ kr ∈ kwRes, e.id = kr.id ∧ e.content = kr.content)
    kwRes (([] : List SearchResult).foldl setSem []) ?_ ?_ ?_
  · rintro e r _ _ ⟨kr, hkr, h1, h2⟩
    exact ⟨kr, hkr, h1, h2⟩
  · intro r hr
    exact ⟨r, hr, rfl, rfl⟩
  · intro e he
    simp at he

/-- C6 counterexample: with the embedding model healthy and only the
cross-encoder raising, hybrid search returns the semantic candidate even
though keyword-only search returns nothing — it does not degrade to
keyword-only results. -/
theorem C6_counterexample :
    hybrid_search (some [⟨0, "alpha", 1/2⟩]) none ("beta") [⟨0, "alpha"⟩]
        10 (7/10) ≠ [] ∧
      keyword_search ("beta") [⟨0, "alpha"⟩] 10 = [] := by
  constructor
  · intro h
    have hl : (hybrid_search (some [⟨0, "alpha", 1/2⟩]) none ("beta")
        [⟨0, "alpha"⟩] 10 (7/10)).length = 1 := rfl
    rw [h] at hl
    exact absurd hl (by norm_num)
  · rfl

/-- C6 (amended): when the embedding model is unavailable every hybrid
result is one of the keyword-search candidates; when the cross-encoder is
unavailable the un-reranked hybrid-ordered top `k` is returned instead
(not keyword-only results); no case raises, and an empty corpus always
yields the empty list. -/
theorem C6_failure_degradation :
    (∀ (ce : Option (String → String → ℚ)) (query : String)
        (docs : List Doc) (k : Nat) (w : ℚ),
      ∀ r ∈ hybrid_search none ce query docs k w,
        ∃ kr ∈ keyword_search query docs k,
          r.id = kr.id ∧ r.content = kr.content) ∧
      (∀ (semOracle : Option (List SearchResult)) (query : String)
          (docs : List Doc) (k : Nat) (w : ℚ),
        hybrid_search semOracle none query docs k w =
          (stableSort hybridGe (withHybrid w (combineResults
            (semantic_search semOracle)
            (keyword_search query docs k)))).take k) ∧
      (∀ (semOracle : Option (List SearchResult))
          (ce : Option (String → String → ℚ)) (query : String) (k : Nat)
          (w : ℚ), semantic_search semOracle = [] →
        hybrid_search semOracle ce query [] k w = []) := by
  refine ⟨?_, ?_, ?_⟩
  · intro ce query docs k w r hr
    obtain ⟨c, hc, h1, h2⟩ :=
      hybrid_search_mem_combined none ce query docs k w r hr
    obtain ⟨kr, hkr, h3, h4⟩ := combineResults_nil_sem _ c hc
    exact ⟨kr, hkr, by rw [h1, h3], by rw [h2, h4]⟩
  · intro semOracle query docs k w
    rw [show hybrid_search semOracle none query docs k w =
        ((stableSort hybridGe (withHybrid w (combineResults
          (semantic_search semOracle)
          (keyword_search query docs k)))).take (k*2)).take k from rfl]
    rw [List.take_take, inf_eq_left.mpr (by omega : k ≤ k * 2)]
  · intro semOracle ce query k w h0
    have hkw : keyword_search query [] k = [] := by
      simp [keyword_search, stableSort]
    have hcomb : combineResults (semantic_search semOracle)
        (keyword_search query [] k) = [] := by
      rw [hkw, h0]
      rfl
    cases ce with
    | none =>
      show ((stableSort hybridGe (withHybrid w (combineResults
        (semantic_search semOracle)
        (keyword_search query [] k)))).take (k*2)).take k = []
      rw [hcomb]
      simp [withHybrid, stableSort]
    | some f =>
      rw [show hybrid_search semOracle (some f) query [] k w =
          rerank_results (some f) query ((stableSort hybridGe (withHybrid w
            (combineResults (semantic_search semOracle)
              (keyword_search query [] k)))).take (k*2)) k from rfl,
        rerank_results_some, hcomb]
      simp [withHybrid, stableSort]

/-- C6 witness: an empty corpus returns the empty list (with both oracles
healthy), and with the cross-encoder down a one-chunk corpus returns the
hybrid-ordered top results. -/
theorem C6_failure_degradation_witness :
    hybrid_search (some []) (some (fun _ _ => 0)) ("q") [] 5 (7/10) = [] ∧
      hybrid_search none none ("q") [⟨0, "alpha"⟩] 5 (7/10) =
        (stableSort hybridGe (withHybrid (7/10) (combineResults
          (semantic_search none)
          (keyword_search ("q") [⟨0, "alpha"⟩] 5)))).take 5 :=
  ⟨C6_failure_degradation.2.2 (some []) (some (fun _ _ => 0)) ("q") 5
      (7/10) rfl,
    C6_failure_degradation.2.1 none ("q") [⟨0, "alpha"⟩] 5 (7/10)⟩
